import Mathlib

/-!
Verification of the quiz performance-analysis and rank-prediction engine.

The development shallowly embeds the engine's JavaScript modules:
  * `Utils`         — the statistical helpers of the data-processing module
                      (`calculateMean`, `calculateMovingAverage`,
                      `analyzeImprovementTrends`, `identifyWeaknesses`,
                      `validateSubmissionData`);
  * `Server`        — the procedural analyzer of the express server module
                      (`analyzePerformance` and its weak-area computation);
  * `QuizAnalyzer`  — the object-oriented analyzer class;
  * `RankPredictor` — the rank-prediction class.

JavaScript numbers are modelled as rationals (`ℚ`), or reals (`ℝ`) where a
square root occurs.  A computation that in JavaScript produces a non-finite
number (`Infinity` or `NaN`, always via a division by zero here) is modelled
as `Option`-valued, `none` standing for the non-finite result; every
arithmetic operation propagates `none`, as JavaScript arithmetic propagates
non-finite operands.
-/

/-- JavaScript division on finite operands: `a / b` yields a non-finite
number (`±Infinity` or `NaN`) exactly when `b = 0`; non-finite results are
modelled as `none`. -/
def jsDiv (a b : ℚ) : Option ℚ := if b = 0 then none else some (a / b)

/-- Sum of a list of JavaScript numbers: any non-finite element makes the
whole sum non-finite. -/
def optSum : List (Option ℚ) → Option ℚ
  | [] => some 0
  | none :: _ => none
  | some a :: xs => (optSum xs).map (fun s => a + s)

/-- The keys of a JavaScript object in insertion order: first appearance of
each string in the list. -/
def firstAppear (l : List String) : List String :=
  l.foldl (fun acc t => if t ∈ acc then acc else acc ++ [t]) []

/-- One step of populating a JavaScript object keyed by strings: when the key
is present its value is updated in place, otherwise a fresh entry is appended
(string keys of a JavaScript object enumerate in insertion order). -/
def upsertStep {α σ : Type} (key : α → String) (add : σ → α → σ) (init : σ)
    (acc : List (String × σ)) (a : α) : List (String × σ) :=
  if key a ∈ acc.map Prod.fst then
    acc.map (fun p => if p.1 = key a then (p.1, add p.2 a) else p)
  else
    acc ++ [(key a, add init a)]

/-- Populating a JavaScript object by one pass over a list, grouping by a
string key; common shape of `analyzePerformance`'s topic loop and of
`prepareTopicDistributionData`. -/
def groupAcc {α σ : Type} (key : α → String) (add : σ → α → σ) (init : σ)
    (l : List α) : List (String × σ) :=
  l.foldl (upsertStep key add init) []

/-- Stats of a single topic recomputed directly: fold the adder over exactly
the records carrying that key.  Used as the specification-side description of
`groupAcc`'s entries. -/
def groupedStats {α σ : Type} (key : α → String) (add : σ → α → σ) (init : σ)
    (l : List α) (t : String) : σ :=
  List.foldl add init (l.filter (fun a => key a = t))

theorem firstAppear_append (l : List String) (t : String) :
    firstAppear (l ++ [t]) =
      if t ∈ firstAppear l then firstAppear l else firstAppear l ++ [t] := by
  simp [firstAppear, List.foldl_append]

theorem mem_firstAppear (l : List String) (t : String) :
    t ∈ firstAppear l ↔ t ∈ l := by
  induction l using List.reverseRecOn with
  | nil => simp [firstAppear]
  | append_singleton l x ih =>
    rw [firstAppear_append]
    by_cases hx : x ∈ firstAppear l
    · simp only [if_pos hx, ih, List.mem_append, List.mem_singleton]
      constructor
      · exact fun h => Or.inl h
      · rintro (h | rfl)
        · exact h
        · exact ih.mp hx
    · simp [hx, ih]

theorem groupedStats_append {α σ : Type} (key : α → String) (add : σ → α → σ)
    (init : σ) (l : List α) (a : α) (t : String) :
    groupedStats key add init (l ++ [a]) t =
      if key a = t then add (groupedStats key add init l t) a
      else groupedStats key add init l t := by
  by_cases h : key a = t <;> simp [groupedStats, List.filter_append, h]

/-- Master description of the grouping pass: the resulting association list
has one entry per key in first-appearance order, and each entry's value is
the fold of the adder over precisely the records with that key. -/
theorem groupAcc_eq {α σ : Type} (key : α → String) (add : σ → α → σ) (init : σ)
    (l : List α) :
    groupAcc key add init l =
      (firstAppear (l.map key)).map
        (fun t => (t, groupedStats key add init l t)) := by
  induction l using List.reverseRecOn with
  | nil => simp [groupAcc, firstAppear, groupedStats]
  | append_singleton l a ih =>
    have hkeys : (groupAcc key add init l).map Prod.fst = firstAppear (l.map key) := by
      rw [ih, List.map_map]; simp [Function.comp_def]
    have hstep : groupAcc key add init (l ++ [a]) =
        upsertStep key add init (groupAcc key add init l) a := by
      simp [groupAcc, List.foldl_append]
    rw [hstep, List.map_append, List.map_singleton, firstAppear_append]
    by_cases hmem : key a ∈ firstAppear (l.map key)
    · rw [if_pos hmem]
      rw [upsertStep, hkeys, if_pos hmem, ih, List.map_map]
      apply List.map_congr_left
      intro t _
      by_cases ht : t = key a
      · subst ht
        simp [groupedStats_append]
      · have : ¬ (key a = t) := fun h => ht h.symm
        simp [ht, this, groupedStats_append]
    · rw [if_neg hmem]
      rw [upsertStep, hkeys, if_neg hmem, ih, List.map_append]
      congr 1
      · apply List.map_congr_left
        intro t htmem
        have : ¬ (key a = t) := by
          intro h
          exact hmem (h ▸ htmem)
        simp [groupedStats_append, this]
      · have hnil : groupedStats key add init l (key a) = init := by
          have : l.filter (fun a' => key a' = key a) = [] := by
            rw [List.filter_eq_nil_iff]
            intro b hb
            simp only [decide_eq_true_eq]
            intro hkb
            exact hmem ((mem_firstAppear _ _).mpr (hkb ▸ List.mem_map_of_mem key hb))
          simp [groupedStats, this]
        simp [groupedStats_append, hnil]

/-- Current-attempt submission record: the fields of the submission object
read by `analyzePerformance`, `predictRank` and `validateSubmissionData`
(required-field presence is enforced by the record type). -/
structure Submission where
  quiz_id : ℤ
  submitted_at : ℚ
  correct_answers : ℚ
  total_questions : ℚ
  speed : ℚ
  accuracy : ℚ
  final_score : ℚ
  mistakes_corrected : ℚ
  initial_mistake_count : ℚ
deriving DecidableEq

/-- Historical attempt record as read by the server's `analyzePerformance`;
the nested `attempt.quiz.topic` is flattened into the `topic` field. -/
structure Attempt where
  topic : String
  accuracy : ℚ
  speed : ℚ
  incorrect_answers : ℚ
  total_questions : ℚ
  submitted_at : ℚ
deriving DecidableEq

namespace Server

/-- Per-topic accumulator of `analyzePerformance`'s history loop.  The source
reuses the fields `averageSpeed` and `mistakeRate` as running sums before
overwriting them with averages; here the accumulating fields are named
`speedSum` and `mistakeRateSum` and the finalized record is a separate
structure.  The per-attempt mistake rate `incorrect_answers / total_questions`
can be non-finite (zero `total_questions`), hence the `Option`. -/
structure TopicAcc where
  attempts : ℕ
  totalAccuracy : ℚ
  speedSum : ℚ
  mistakeRateSum : Option ℚ
deriving DecidableEq

/-- The fresh accumulator installed when a topic is first seen:
`{attempts: 0, totalAccuracy: 0, averageSpeed: 0, mistakeRate: 0}`. -/
def emptyAcc : TopicAcc := ⟨0, 0, 0, some 0⟩

/-- One iteration of the history loop: increment the attempt count and add
the attempt's accuracy, speed and mistake rate to the running sums. -/
def addAttempt (s : TopicAcc) (a : Attempt) : TopicAcc :=
  { attempts := s.attempts + 1
    totalAccuracy := s.totalAccuracy + a.accuracy
    speedSum := s.speedSum + a.speed
    mistakeRateSum :=
      match s.mistakeRateSum, jsDiv a.incorrect_answers a.total_questions with
      | some m, some r => some (m + r)
      | _, _ => none }

/-- The `topicPerformance` object after the history loop of
`analyzePerformance` (before averaging). -/
def topicPerformanceAcc (history : List Attempt) : List (String × TopicAcc) :=
  groupAcc (fun a => a.topic) addAttempt emptyAcc history

/-- Finalized per-topic stats, as written back by the averaging loop of
`analyzePerformance`.  Every entry this is applied to has `attempts ≥ 1`
(proved below), so the divisions are by a nonzero count. -/
structure TopicStats where
  attempts : ℕ
  averageAccuracy : ℚ
  averageSpeed : ℚ
  averageMistakeRate : Option ℚ
deriving DecidableEq

/-- Averaging step of `analyzePerformance`: divide each running sum by the
attempt count. -/
def finalizeStats (s : TopicAcc) : TopicStats :=
  { attempts := s.attempts
    averageAccuracy := s.totalAccuracy / (s.attempts : ℚ)
    averageSpeed := s.speedSum / (s.attempts : ℚ)
    averageMistakeRate := s.mistakeRateSum.map (fun m => m / (s.attempts : ℚ)) }

/-- The finalized `topicPerformance` mapping returned by
`analyzePerformance`. -/
def topicPerformance (history : List Attempt) : List (String × TopicStats) :=
  (topicPerformanceAcc history).map (fun p => (p.1, finalizeStats p.2))

/-- Weak-area test of `analyzePerformance`:
`averageAccuracy < 70 || averageMistakeRate > 0.3`; a non-finite (NaN)
mistake rate compares false, as in JavaScript. -/
def isWeak (s : TopicStats) : Bool :=
  decide (s.averageAccuracy < 70) ||
    (match s.averageMistakeRate with
     | some r => decide ((3 : ℚ) / 10 < r)
     | none => false)

/-- A `weakAreas` entry: `{topic, averageAccuracy, mistakeRate}`. -/
structure WeakArea where
  topic : String
  averageAccuracy : ℚ
  mistakeRate : Option ℚ
deriving DecidableEq

/-- The `weakAreas` list built by `analyzePerformance`: the finalized topics
are traversed in key order and every topic passing `isWeak` is pushed. -/
def weakAreas (history : List Attempt) : List WeakArea :=
  ((topicPerformance history).filter (fun p => isWeak p.2)).map
    (fun p => ⟨p.1, p.2.averageAccuracy, p.2.averageMistakeRate⟩)

/-- `currentPerformance` part of the analysis result; `mistakesImprovement`
is the unguarded division `mistakes_corrected / initial_mistake_count`. -/
structure CurrentPerformance where
  accuracy : ℚ
  speed : ℚ
  mistakesImprovement : Option ℚ
deriving DecidableEq

/-- A point of the `accuracy`/`speed` trend arrays. -/
structure TrendPoint where
  date : ℚ
  value : ℚ
  topic : String
deriving DecidableEq

/-- The full result object of the server's `analyzePerformance`. -/
structure AnalysisResult where
  currentPerformance : CurrentPerformance
  topicPerformance : List (String × TopicStats)
  weakAreas : List WeakArea
  accuracyTrend : List TrendPoint
  speedTrend : List TrendPoint
deriving DecidableEq

/-- The server's `analyzePerformance` (part_003 lines 15-84). -/
def analyzePerformance (submission : Submission) (history : List Attempt) :
    AnalysisResult :=
  { currentPerformance :=
      { accuracy := submission.accuracy
        speed := submission.speed
        mistakesImprovement :=
          jsDiv submission.mistakes_corrected submission.initial_mistake_count }
    topicPerformance := topicPerformance history
    weakAreas := weakAreas history
    accuracyTrend := history.map (fun a => ⟨a.submitted_at, a.accuracy, a.topic⟩)
    speedTrend := history.map (fun a => ⟨a.submitted_at, a.speed, a.topic⟩) }

/-- Handler of `GET /api/quiz/analysis` (part_003 lines 149-157) with the
data-loading collaborator already resolved: the loaded submission and history
are passed straight to `analyzePerformance`; no validation function is
invoked anywhere on this path. -/
def analysisHandler (submission : Submission) (history : List Attempt) :
    AnalysisResult :=
  analyzePerformance submission history

/-- Specification-side recomputation of one topic's accumulator, used to
state the grouping theorems. -/
def statsOf (history : List Attempt) (t : String) : TopicAcc :=
  groupedStats (fun a => a.topic) addAttempt emptyAcc history t

/-- Specification-side weak-area test of a topic, on the recomputed stats. -/
def weakAt (history : List Attempt) (t : String) : Bool :=
  isWeak (finalizeStats (statsOf history t))

end Server

/-- `validateSubmissionData` from the data-processing module: presence of the
required fields is enforced by the `Submission` record type; the range checks
are, in source order, `correct_answers > total_questions` and
`speed <= 0`. -/
def validateSubmissionData (data : Submission) : Except String Unit :=
  if data.total_questions < data.correct_answers then
    Except.error "Correct answers cannot exceed total questions"
  else if data.speed ≤ 0 then
    Except.error "Speed must be a positive number"
  else
    Except.ok ()

namespace Server

theorem foldl_addAttempt_attempts (l : List Attempt) :
    ∀ s : TopicAcc, (List.foldl addAttempt s l).attempts = s.attempts + l.length := by
  induction l with
  | nil => intro s; simp
  | cons a l ih =>
    intro s
    simp only [List.foldl_cons, ih, addAttempt, List.length_cons]
    omega

theorem topicPerformanceAcc_eq (history : List Attempt) :
    topicPerformanceAcc history =
      (firstAppear (history.map (fun a => a.topic))).map
        (fun t => (t, statsOf history t)) := by
  rw [topicPerformanceAcc]
  exact groupAcc_eq (fun a => a.topic) addAttempt emptyAcc history

theorem statsOf_attempts (history : List Attempt) (t : String) :
    (statsOf history t).attempts =
      (history.filter (fun a => a.topic = t)).length := by
  simp [statsOf, groupedStats, foldl_addAttempt_attempts, emptyAcc]

theorem topicPerformance_eq (history : List Attempt) :
    topicPerformance history =
      (firstAppear (history.map (fun a => a.topic))).map
        (fun t => (t, finalizeStats (statsOf history t))) := by
  rw [topicPerformance, topicPerformanceAcc_eq, List.map_map]
  rfl

end Server

/-- Claim C5: a topic appears as a key of the topic-performance mapping
produced by `analyzePerformance` exactly when at least one historical attempt
carries it, and every entry's attempt count is the number of attempts with
that topic — in particular at least 1, so no entry is finalized by dividing
by a zero attempt count. -/
theorem topicPerformance_no_zero_attempts (history : List Attempt) :
    (∀ t, t ∈ (Server.topicPerformance history).map Prod.fst ↔
        t ∈ history.map (fun a => a.topic)) ∧
    ∀ p ∈ Server.topicPerformance history,
      p.2.attempts = (history.filter (fun a => a.topic = p.1)).length ∧
        1 ≤ p.2.attempts := by
  constructor
  · intro t
    rw [Server.topicPerformance_eq, List.map_map]
    simp [Function.comp_def, mem_firstAppear]
  · intro p hp
    rw [Server.topicPerformance_eq] at hp
    rcases List.mem_map.mp hp with ⟨t, htmem, rfl⟩
    have hcount : (Server.finalizeStats (Server.statsOf history t)).attempts =
        (history.filter (fun a => a.topic = t)).length := by
      rw [Server.finalizeStats, Server.statsOf_attempts]
    refine ⟨hcount, ?_⟩
    rw [hcount]
    have ht : t ∈ history.map (fun a => a.topic) := (mem_firstAppear _ _).mp htmem
    rcases List.mem_map.mp ht with ⟨a, ha, rfl⟩
    have : a ∈ history.filter (fun a' => a'.topic = a.topic) :=
      List.mem_filter.mpr ⟨ha, by simp⟩
    exact List.length_pos.mpr (List.ne_nil_of_mem this)

/-- Witness for C5 at a concrete history: the single topic "Algebra" appears
with attempt count 1. -/
theorem topicPerformance_no_zero_attempts_witness :
    ("Algebra", Server.finalizeStats (Server.statsOf [⟨"Algebra", 80, 2, 1, 10, 0⟩] "Algebra")).2.attempts
      = ([⟨"Algebra", 80, 2, 1, 10, 0⟩] : List Attempt).length ∧
    1 ≤ ("Algebra", Server.finalizeStats (Server.statsOf [⟨"Algebra", 80, 2, 1, 10, 0⟩] "Algebra")).2.attempts := by
  have h := (topicPerformance_no_zero_attempts [⟨"Algebra", 80, 2, 1, 10, 0⟩]).2
    ("Algebra", Server.finalizeStats (Server.statsOf [⟨"Algebra", 80, 2, 1, 10, 0⟩] "Algebra"))
    (by rw [Server.topicPerformance_eq]; simp [firstAppear])
  simpa using h

/-- Claim C1 (amended): the weak-areas list of `analyzePerformance` contains
exactly the topics with `averageAccuracy < 70` or `averageMistakeRate > 0.3`,
but in first-appearance order of the topics in the history — the list is not
sorted by accuracy. -/
theorem weakAreas_membership_and_order (history : List Attempt) :
    (Server.weakAreas history).map Server.WeakArea.topic
      = (firstAppear (history.map (fun a => a.topic))).filter
          (Server.weakAt history) ∧
    ∀ t, (∃ w ∈ Server.weakAreas history, w.topic = t) ↔
      (t ∈ history.map (fun a => a.topic) ∧ Server.weakAt history t = true) := by
  have horder : (Server.weakAreas history).map Server.WeakArea.topic
      = (firstAppear (history.map (fun a => a.topic))).filter
          (Server.weakAt history) := by
    rw [Server.weakAreas, Server.topicPerformance_eq, List.filter_map,
      List.map_map, List.map_map]
    have h1 : ∀ t ∈ firstAppear (history.map fun a => a.topic),
        ((fun p : String × Server.TopicStats => Server.isWeak p.2) ∘
            fun t => (t, Server.finalizeStats (Server.statsOf history t))) t
          = Server.weakAt history t := fun t _ => rfl
    rw [List.filter_congr h1]
    exact (List.map_congr_left fun t _ => rfl).trans (List.map_id _)
  refine ⟨horder, fun t => ?_⟩
  have hmem : (∃ w ∈ Server.weakAreas history, w.topic = t) ↔
      t ∈ (Server.weakAreas history).map Server.WeakArea.topic :=
    List.mem_map.symm
  rw [hmem, horder, List.mem_filter, mem_firstAppear]

/-- Claim C1 counterexample: for the history [topic "A" with accuracy 60,
topic "B" with accuracy 50] both topics are weak areas, and the weak-areas
list carries accuracies [60, 50] in that order — not ascending, so the list
is not sorted with the worst topic first. -/
theorem weakAreas_not_sorted_counterexample :
    (Server.weakAreas
        [⟨"A", 60, 1, 4, 10, 0⟩, ⟨"B", 50, 1, 5, 10, 1⟩]).map
      Server.WeakArea.averageAccuracy = [60, 50] ∧
    ¬ List.Sorted (fun x y : ℚ => x ≤ y)
        ((Server.weakAreas
            [⟨"A", 60, 1, 4, 10, 0⟩, ⟨"B", 50, 1, 5, 10, 1⟩]).map
          Server.WeakArea.averageAccuracy) := by
  have heval : (Server.weakAreas
      [⟨"A", 60, 1, 4, 10, 0⟩, ⟨"B", 50, 1, 5, 10, 1⟩]).map
      Server.WeakArea.averageAccuracy = [60, 50] := by
    norm_num [Server.weakAreas, Server.topicPerformance, Server.topicPerformanceAcc,
      groupAcc, upsertStep, Server.addAttempt, Server.emptyAcc, Server.finalizeStats,
      Server.isWeak, jsDiv, List.filter]
  refine ⟨heval, ?_⟩
  rw [heval]
  intro h
  have h50 : (60 : ℚ) ≤ 50 := List.rel_of_sorted_cons h 50 (by simp)
  norm_num at h50

/-- Witness for C1 at a concrete history: topic "A" (accuracy 60) is a member
of the weak-areas list of a one-attempt history, and the membership equivalence
of the theorem holds there. -/
theorem weakAreas_membership_witness :
    (∃ w ∈ Server.weakAreas [⟨"A", 60, 1, 4, 10, 0⟩], w.topic = "A") ↔
      ("A" ∈ ([⟨"A", 60, 1, 4, 10, 0⟩] : List Attempt).map (fun a => a.topic) ∧
        Server.weakAt [⟨"A", 60, 1, 4, 10, 0⟩] "A" = true) :=
  (weakAreas_membership_and_order [⟨"A", 60, 1, 4, 10, 0⟩]).2 "A"

/-- Claim C3 (code bug): `mistakesImprovement` is the unguarded quotient
`mistakes_corrected / initial_mistake_count`; at a submission with
`initial_mistake_count = 0` the non-finite quotient reaches the analysis
output instead of an error or a sentinel value. -/
theorem mistakesImprovement_unguarded :
    (Server.analyzePerformance ⟨1, 0, 80, 100, 100, 80, 80, 3, 0⟩
        []).currentPerformance.mistakesImprovement = none ∧
    ∀ (sub : Submission) (history : List Attempt),
      (Server.analyzePerformance sub history).currentPerformance.mistakesImprovement
        = jsDiv sub.mistakes_corrected sub.initial_mistake_count :=
  ⟨by norm_num [Server.analyzePerformance, jsDiv], fun _ _ => rfl⟩

/-- Claim C8 (code bug): `validateSubmissionData` does reject a submission
with 101 correct answers out of 100 questions, but the analysis route never
invokes any validation: the handler returns the fully computed analysis for
that invalid submission instead of failing the request. -/
theorem invalidRange_not_enforced_on_analysis_route :
    validateSubmissionData ⟨1, 0, 101, 100, 1, 90, 90, 3, 4⟩
      = Except.error "Correct answers cannot exceed total questions" ∧
    Server.analysisHandler ⟨1, 0, 101, 100, 1, 90, 90, 3, 4⟩
        [⟨"Biology", 90, 1, 1, 10, 0⟩]
      = { currentPerformance := ⟨90, 1, some (3 / 4)⟩
          topicPerformance := [("Biology", ⟨1, 90, 1, some (1 / 10)⟩)]
          weakAreas := []
          accuracyTrend := [⟨0, 90, "Biology"⟩]
          speedTrend := [⟨0, 1, "Biology"⟩] } := by
  constructor
  · norm_num [validateSubmissionData]
  · norm_num [Server.analysisHandler, Server.analyzePerformance, Server.weakAreas,
      Server.topicPerformance, Server.topicPerformanceAcc, groupAcc, upsertStep,
      Server.addAttempt, Server.emptyAcc, Server.finalizeStats, Server.isWeak,
      jsDiv, List.filter]

/-- JavaScript division on real operands: non-finite exactly on a zero
denominator; `none` models the non-finite result. -/
noncomputable def jsDivR (a b : ℝ) : Option ℝ := if b = 0 then none else some (a / b)

/-- Sum of a list of real JavaScript numbers: a non-finite element poisons
the sum. -/
def optSumR : List (Option ℝ) → Option ℝ
  | [] => some 0
  | none :: _ => none
  | some a :: xs => (optSumR xs).map (fun s => a + s)

/-- The coefficient-of-variation consistency formula shared verbatim by
`QuizAnalyzer.calculateConsistencyScore` and the long branch of
`RankPredictor.calculateConsistency`:
`1 - sqrt(variance) / mean` with `mean = sum/n` and population variance
`sum((s - mean)^2)/n`.  Division by a zero length or zero mean gives a
non-finite value. -/
noncomputable def cvFormula (scores : List ℚ) : Option ℝ :=
  match jsDiv scores.sum (scores.length : ℚ) with
  | none => none
  | some mean =>
    match jsDiv ((scores.map (fun s => (s - mean) ^ 2)).sum) (scores.length : ℚ) with
    | none => none
    | some variance =>
      (jsDivR (Real.sqrt (variance : ℝ)) (mean : ℝ)).map (fun q => 1 - q)

namespace RankPredictor

/-- One record of the predictor's `historicalData`: the fields read by the
class (`score`, `rank` for correlation, `accuracy`, `speed` when a record is
fed back through `normalizeScore`). -/
structure HistoricalDatum where
  score : ℚ
  rank : ℚ
  accuracy : ℚ
  speed : ℚ
deriving DecidableEq

/-- `calculateConsistency`: 1 for fewer than 2 scores, otherwise the shared
coefficient-of-variation formula. -/
noncomputable def calculateConsistency (hist : List HistoricalDatum) : Option ℝ :=
  let scores := hist.map (fun d => d.score)
  if scores.length < 2 then some 1 else cvFormula scores

/-- `calculateImprovement`: 0 for fewer than 2 scores, otherwise
`(last - first) / first` (non-finite when the first score is 0). -/
def calculateImprovement (hist : List HistoricalDatum) : Option ℚ :=
  let scores := hist.map (fun d => d.score)
  if scores.length < 2 then some 0
  else
    match scores.getLast?, scores.head? with
    | some lastScore, some firstScore => jsDiv (lastScore - firstScore) firstScore
    | _, _ => none

/-- `normalizeScore` with the weights 0.4/0.2/0.2/0.2; the performance
object's `accuracy` and `speed` fields are passed explicitly. -/
noncomputable def normalizeScore (accuracy speed : ℚ) (hist : List HistoricalDatum) :
    Option ℝ :=
  match calculateConsistency hist, calculateImprovement hist with
  | some c, some imp =>
    some ((0.4 : ℝ) * (accuracy : ℝ) + 0.2 * (speed : ℝ) + 0.2 * c + 0.2 * (imp : ℝ))
  | _, _ => none

/-- `getBaseRank`: `round(50000 * (1 - normalizedScore))`. -/
noncomputable def getBaseRank (normalizedScore : ℝ) : ℤ :=
  round ((50000 : ℝ) * (1 - normalizedScore))

/-- `calculateHistoricalCorrelation`: the Pearson coefficient of the score
and rank series; 1 when fewer than 2 records or when the denominator is 0. -/
noncomputable def calculateHistoricalCorrelation (hist : List HistoricalDatum) : ℝ :=
  let scores := hist.map (fun d => (d.score : ℝ))
  let ranks := hist.map (fun d => (d.rank : ℝ))
  if scores.length < 2 then 1
  else
    let meanScore := scores.sum / (scores.length : ℝ)
    let meanRank := ranks.sum / (ranks.length : ℝ)
    let numerator :=
      (List.zipWith (fun s r => (s - meanScore) * (r - meanRank)) scores ranks).sum
    let denominator :=
      Real.sqrt ((scores.map (fun s => (s - meanScore) ^ 2)).sum *
        (ranks.map (fun r => (r - meanRank) ^ 2)).sum)
    if denominator = 0 then 1 else numerator / denominator

/-- `calculatePredictedRank`:
`round(baseRank * historicalCorrelation)`, the correlation used as-is. -/
noncomputable def calculatePredictedRank (normalizedScore : ℝ)
    (hist : List HistoricalDatum) : ℤ :=
  round ((getBaseRank normalizedScore : ℝ) * calculateHistoricalCorrelation hist)

/-- The absolute in-sample errors of `calculateStandardError`: for each
historical record, `|actual rank - predicted rank|` with the prediction run
on the record's own score inputs. -/
noncomputable def predictionErrors (hist : List HistoricalDatum) : List (Option ℝ) :=
  hist.map (fun d =>
    (normalizeScore d.accuracy d.speed hist).map (fun ns =>
      |(d.rank : ℝ) - (calculatePredictedRank ns hist : ℝ)|))

/-- `calculateStandardError`: the `sqrt` of the population variance of the
absolute in-sample errors.  Both divisions are by `hist.length` (non-finite
on an empty history). -/
noncomputable def calculateStandardError (hist : List HistoricalDatum) : Option ℝ :=
  match optSumR (predictionErrors hist) with
  | none => none
  | some total =>
    match jsDivR total (hist.length : ℝ) with
    | none => none
    | some meanError =>
      match optSumR ((predictionErrors hist).map
          (Option.map (fun e => (e - meanError) ^ 2))) with
      | none => none
      | some sqTotal => (jsDivR sqTotal (hist.length : ℝ)).map Real.sqrt

/-- The pair `(lower, upper)` of `calculateConfidenceInterval` as a function
of the predicted rank and the standard error:
`lower = max(1, round(pr - 1.96*SE))`, `upper = round(pr + 1.96*SE)`. -/
noncomputable def ciBounds (predictedRank : ℤ) (standardError : ℝ) : ℤ × ℤ :=
  (max 1 (round ((predictedRank : ℝ) - 1.96 * standardError)),
    round ((predictedRank : ℝ) + 1.96 * standardError))

/-- `calculateConfidenceInterval`: `ciBounds` at the standard error computed
from the history. -/
noncomputable def calculateConfidenceInterval (hist : List HistoricalDatum)
    (predictedRank : ℤ) : Option (ℤ × ℤ) :=
  (calculateStandardError hist).map (ciBounds predictedRank)

/-- One entry of `getPotentialColleges`. -/
structure College where
  name : String
  probability : ℚ
  cutoffMin : ℚ
  cutoffMax : ℚ
deriving DecidableEq

/-- The fixed college tiers `(maxRank, name)`. -/
def collegeTiers : List (ℚ × String) :=
  [(1000, "Tier 1 Medical Colleges"),
   (5000, "Tier 2 Medical Colleges"),
   (10000, "Tier 3 Medical Colleges")]

/-- `calculateCollegeProbability`: 0.9 within the 10% buffer below the
cutoff, 0.7 at or below the cutoff, 0.3 above it. -/
def calculateCollegeProbability (predictedRank : ℤ) (cutoff : ℚ) : ℚ :=
  if (predictedRank : ℚ) ≤ cutoff - cutoff * (1 / 10) then 9 / 10
  else if (predictedRank : ℚ) ≤ cutoff then 7 / 10
  else 3 / 10

/-- `getPotentialColleges`: tiers with `predictedRank ≤ maxRank`, each with
its admission probability and cutoff range `[maxRank - 1000, maxRank]`. -/
def getPotentialColleges (predictedRank : ℤ) : List College :=
  (collegeTiers.filter (fun tier => (predictedRank : ℚ) ≤ tier.1)).map
    (fun tier =>
      ⟨tier.2, calculateCollegeProbability predictedRank tier.1,
        tier.1 - 1000, tier.1⟩)

/-- `calculatePredictionAccuracy`: 0.7 for fewer than 2 records, otherwise
the mean of `1 - |actual - predicted| / actual` over the history. -/
noncomputable def calculatePredictionAccuracy (hist : List HistoricalDatum) :
    Option ℝ :=
  if hist.length < 2 then some (7 / 10)
  else
    let accuracies : List (Option ℝ) := hist.map (fun d =>
      (normalizeScore d.accuracy d.speed hist).bind (fun ns =>
        (jsDivR |(d.rank : ℝ) - (calculatePredictedRank ns hist : ℝ)| (d.rank : ℝ)).map
          (fun e => 1 - e)))
    match optSumR accuracies with
    | none => none
    | some total => jsDivR total (hist.length : ℝ)

/-- The result object of `predictRank`. -/
structure PredictionResult where
  predictedRank : ℤ
  confidenceInterval : ℤ × ℤ
  normalizedScore : ℝ
  potentialColleges : List College
  accuracy : ℝ

/-- `predictRank`: the full pipeline of the predictor on the current
performance's `accuracy` and `speed` and the stored history. -/
noncomputable def predictRank (accuracy speed : ℚ) (hist : List HistoricalDatum) :
    Option PredictionResult :=
  match normalizeScore accuracy speed hist with
  | none => none
  | some ns =>
    match calculateStandardError hist with
    | none => none
    | some se =>
      match calculatePredictionAccuracy hist with
      | none => none
      | some pa =>
        some ⟨calculatePredictedRank ns hist,
          ciBounds (calculatePredictedRank ns hist) se, ns,
          getPotentialColleges (calculatePredictedRank ns hist), pa⟩

end RankPredictor

namespace QuizAnalyzer

/-- A question of the quiz definition. -/
structure Question where
  id : ℕ
  topic : String
  correctOption : ℕ
deriving DecidableEq

/-- A historical quiz record as used by the analyzer class: its score and
its topic-tagged question list. -/
structure HQuiz where
  score : ℚ
  questions : List Question
deriving DecidableEq

/-- The instance context `this.currentQuiz` / `this.submission` of the
analyzer class: the current quiz's questions and the submission's
`answers` mapping (question id to chosen option, absent when unanswered). -/
structure Ctx where
  questions : List Question
  answers : ℕ → Option ℕ

/-- `isCorrectAnswer`: look the question up in the current quiz; true when
it exists and the submitted answer equals its correct option. -/
def isCorrectAnswer (ctx : Ctx) (questionId : ℕ) : Bool :=
  match ctx.questions.find? (fun q => q.id = questionId) with
  | some q => ctx.answers questionId == some q.correctOption
  | none => false

/-- `calculateTopicImprovement`: per-quiz topic accuracy over the last three
historical quizzes (`slice(-3)`), then last minus first; 0 when fewer than 2
entries.  A quiz without questions on the topic contributes a non-finite
(0/0) entry. -/
def calculateTopicImprovement (ctx : Ctx) (history : List HQuiz) (topic : String) :
    Option ℚ :=
  let recentQuizzes := history.drop (history.length - 3)
  let topicScores : List (Option ℚ) := recentQuizzes.map (fun quiz =>
    let topicQuestions := quiz.questions.filter (fun q => q.topic = topic)
    jsDiv ((topicQuestions.filter (fun q => isCorrectAnswer ctx q.id)).length : ℚ)
      (topicQuestions.length : ℚ))
  if topicScores.length < 2 then some 0
  else
    match topicScores.getLast?, topicScores.head? with
    | some lastScore, some firstScore =>
      match lastScore, firstScore with
      | some x, some y => some (x - y)
      | _, _ => none
    | _, _ => none

/-- `calculateImprovementRate`: `(last - first) / first` over the historical
scores; 0 when fewer than 2 (the division by a zero first score is not
guarded). -/
def calculateImprovementRate (history : List HQuiz) : Option ℚ :=
  let scores := history.map (fun q => q.score)
  if scores.length < 2 then some 0
  else
    match scores.getLast?, scores.head? with
    | some lastScore, some firstScore => jsDiv (lastScore - firstScore) firstScore
    | _, _ => none

/-- `calculateConsistencyScore`: the shared coefficient-of-variation formula
over the historical scores, with no short-series guard. -/
noncomputable def calculateConsistencyScore (history : List HQuiz) : Option ℝ :=
  cvFormula (history.map (fun q => q.score))

end QuizAnalyzer

theorem round_eq_intCast_of_eq {x : ℝ} {n : ℤ} (h : x = (n : ℝ)) : round x = n := by
  rw [h, round_intCast]

theorem round_le_round_of_le {x y : ℝ} (h : x ≤ y) : round x ≤ round y := by
  rw [round_eq, round_eq]
  exact Int.floor_le_floor (by linarith)

namespace RankPredictor

theorem calculateConsistency_singleton (d : HistoricalDatum) :
    calculateConsistency [d] = some 1 := by
  simp [calculateConsistency]

theorem calculateImprovement_singleton (d : HistoricalDatum) :
    calculateImprovement [d] = some 0 := by
  simp [calculateImprovement]

theorem normalizeScore_singleton (a s : ℚ) (d : HistoricalDatum) :
    normalizeScore a s [d] =
      some ((0.4 : ℝ) * (a : ℝ) + 0.2 * (s : ℝ) + 0.2) := by
  rw [normalizeScore, calculateConsistency_singleton, calculateImprovement_singleton]
  norm_num

theorem calculateHistoricalCorrelation_singleton (d : HistoricalDatum) :
    calculateHistoricalCorrelation [d] = 1 := by
  simp [calculateHistoricalCorrelation]

theorem calculatePredictedRank_singleton (ns : ℝ) (d : HistoricalDatum) :
    calculatePredictedRank ns [d] = getBaseRank ns := by
  rw [calculatePredictedRank, calculateHistoricalCorrelation_singleton, mul_one,
    round_intCast]

theorem calculateStandardError_singleton (d : HistoricalDatum) :
    calculateStandardError [d] = some 0 := by
  have he0 : predictionErrors [d] =
      [some |(d.rank : ℝ) -
        (calculatePredictedRank
          ((0.4 : ℝ) * (d.accuracy : ℝ) + 0.2 * (d.speed : ℝ) + 0.2) [d] : ℝ)|] := by
    rw [predictionErrors]
    simp [normalizeScore_singleton]
  obtain ⟨e, he⟩ : ∃ e, predictionErrors [d] = [some e] := ⟨_, he0⟩
  rw [calculateStandardError, he]
  rw [show (([d] : List HistoricalDatum).length : ℝ) = 1 from by simp]
  rw [show optSumR [some e] = some e from by simp [optSumR]]
  dsimp only
  rw [show jsDivR e 1 = some e from by simp [jsDivR]]
  dsimp only
  rw [show optSumR ([some e].map (Option.map (fun x => (x - e) ^ 2))) = some 0 from by
    norm_num [optSumR]]
  dsimp only
  rw [show jsDivR 0 1 = some 0 from by norm_num [jsDivR]]
  simp [Real.sqrt_zero]

theorem calculatePredictionAccuracy_singleton (d : HistoricalDatum) :
    calculatePredictionAccuracy [d] = some (7 / 10) := by
  simp [calculatePredictionAccuracy]

theorem predictRank_singleton (a s : ℚ) (d : HistoricalDatum) :
    predictRank a s [d] =
      some ⟨calculatePredictedRank ((0.4 : ℝ) * (a : ℝ) + 0.2 * (s : ℝ) + 0.2) [d],
        ciBounds
          (calculatePredictedRank ((0.4 : ℝ) * (a : ℝ) + 0.2 * (s : ℝ) + 0.2) [d]) 0,
        (0.4 : ℝ) * (a : ℝ) + 0.2 * (s : ℝ) + 0.2,
        getPotentialColleges
          (calculatePredictedRank ((0.4 : ℝ) * (a : ℝ) + 0.2 * (s : ℝ) + 0.2) [d]),
        7 / 10⟩ := by
  rw [predictRank, normalizeScore_singleton, calculateStandardError_singleton,
    calculatePredictionAccuracy_singleton]

theorem ciBounds_zero (pr : ℤ) : ciBounds pr 0 = (max 1 pr, pr) := by
  rw [ciBounds]
  norm_num

end RankPredictor

/-- Claim C2 (amended): the confidence interval's lower bound is always at
least 1 (the standard error is never negative), and whenever the predicted
rank is at least 1 the interval brackets it:
`lower ≤ predictedRank ≤ upper`.  For a predicted rank below 1 the clamped
lower bound exceeds the predicted rank. -/
theorem confidenceInterval_bounds :
    (∀ (hist : List RankPredictor.HistoricalDatum) (se : ℝ),
      RankPredictor.calculateStandardError hist = some se → 0 ≤ se) ∧
    ∀ (pr : ℤ) (se : ℝ), 0 ≤ se →
      1 ≤ (RankPredictor.ciBounds pr se).1 ∧
      (1 ≤ pr →
        (RankPredictor.ciBounds pr se).1 ≤ pr ∧
          pr ≤ (RankPredictor.ciBounds pr se).2) := by
  constructor
  · intro hist se h
    rw [RankPredictor.calculateStandardError] at h
    rcases h1 : optSumR (RankPredictor.predictionErrors hist) with _ | total
    · rw [h1] at h; exact absurd h (by simp)
    rw [h1] at h
    dsimp only at h
    rcases h2 : jsDivR total (hist.length : ℝ) with _ | meanError
    · rw [h2] at h; exact absurd h (by simp)
    rw [h2] at h
    dsimp only at h
    rcases h3 : optSumR ((RankPredictor.predictionErrors hist).map
        (Option.map (fun e => (e - meanError) ^ 2))) with _ | sqTotal
    · rw [h3] at h; exact absurd h (by simp)
    rw [h3] at h
    dsimp only at h
    rcases Option.map_eq_some'.mp h with ⟨v, _, hv⟩
    rw [← hv]
    exact Real.sqrt_nonneg v
  · intro pr se hse
    have hmargin : (0 : ℝ) ≤ 1.96 * se := by nlinarith
    have hlow : round ((pr : ℝ) - 1.96 * se) ≤ pr := by
      have := round_le_round_of_le (x := (pr : ℝ) - 1.96 * se) (y := (pr : ℝ))
        (by linarith)
      rwa [round_intCast] at this
    have hup : pr ≤ round ((pr : ℝ) + 1.96 * se) := by
      have := round_le_round_of_le (x := (pr : ℝ)) (y := (pr : ℝ) + 1.96 * se)
        (by linarith)
      rwa [round_intCast] at this
    exact ⟨le_max_left 1 _, fun hpr => ⟨max_le hpr hlow, hup⟩⟩

/-- Witness for C2 at concrete inputs: the standard error of a one-record
history is non-negative, and at predicted rank 5 with standard error 2 the
bounds hold. -/
theorem confidenceInterval_bounds_witness :
    (0 : ℝ) ≤ 0 ∧ 1 ≤ (RankPredictor.ciBounds 5 2).1 ∧
      (RankPredictor.ciBounds 5 2).1 ≤ 5 ∧ 5 ≤ (RankPredictor.ciBounds 5 2).2 :=
  ⟨confidenceInterval_bounds.1 [⟨50, 1000, 100, 100⟩] 0
      (RankPredictor.calculateStandardError_singleton ⟨50, 1000, 100, 100⟩),
    (confidenceInterval_bounds.2 5 2 zero_le_two).1,
    (confidenceInterval_bounds.2 5 2 zero_le_two).2 (by decide)⟩

/-- Claim C2 counterexample: on the one-record history
[{score 50, rank 1000, accuracy 100, speed 100}] with current performance
accuracy 100 and speed 100, `predictRank` produces predicted rank -2960000
with confidence-interval lower bound 1, so `lower ≤ predictedRank` fails. -/
theorem confidenceInterval_bound_violated_counterexample :
    (RankPredictor.predictRank 100 100 [⟨50, 1000, 100, 100⟩]).map
        (fun r => (r.confidenceInterval.1, r.predictedRank)) = some (1, -2960000) ∧
    ¬ ((1 : ℤ) ≤ -2960000) := by
  have hpr : RankPredictor.calculatePredictedRank
      ((0.4 : ℝ) * ((100 : ℚ) : ℝ) + 0.2 * ((100 : ℚ) : ℝ) + 0.2)
      [⟨50, 1000, 100, 100⟩] = -2960000 := by
    rw [RankPredictor.calculatePredictedRank_singleton, RankPredictor.getBaseRank]
    exact round_eq_intCast_of_eq (by push_cast; norm_num)
  constructor
  · rw [RankPredictor.predictRank_singleton, hpr]
    simp only [Option.map_some']
    rw [RankPredictor.ciBounds_zero]
    norm_num
  · decide

theorem correlation_anticorrelated_eval :
    RankPredictor.calculateHistoricalCorrelation
      [⟨50, 4000, 50, 50⟩, ⟨90, 1000, 90, 90⟩] = -1 := by
  have hs : Real.sqrt 3600000000 = 60000 := by
    rw [show (3600000000 : ℝ) = 60000 ^ 2 by norm_num,
      Real.sqrt_sq (by norm_num : (0 : ℝ) ≤ 60000)]
  norm_num [RankPredictor.calculateHistoricalCorrelation, List.zipWith, hs]

/-- Claim C4 (amended): the predicted rank equals
`round(baseRank(normalizedScore) * historicalCorrelation())` with the
correlation factor used exactly as computed — a negative correlation is not
replaced by the neutral value 1 — and no flooring at 1 occurs in the rank
computation itself (the only `max(1, ·)` clamp in the predictor is the
confidence interval's lower bound).  In particular a negative correlation
with a positive base rank forces a non-positive predicted rank. -/
theorem predictedRank_formula :
    (∀ (a s : ℚ) (hist : List RankPredictor.HistoricalDatum)
        (r : RankPredictor.PredictionResult),
      RankPredictor.predictRank a s hist = some r →
      ∃ ns, RankPredictor.normalizeScore a s hist = some ns ∧
        r.predictedRank = round ((RankPredictor.getBaseRank ns : ℝ) *
          RankPredictor.calculateHistoricalCorrelation hist) ∧
        ∃ se, RankPredictor.calculateStandardError hist = some se ∧
          r.confidenceInterval = RankPredictor.ciBounds r.predictedRank se) ∧
    ∀ (ns : ℝ) (hist : List RankPredictor.HistoricalDatum),
      RankPredictor.calculateHistoricalCorrelation hist < 0 →
      0 < RankPredictor.getBaseRank ns →
      RankPredictor.calculatePredictedRank ns hist ≤ 0 := by
  constructor
  · intro a s hist r h
    rw [RankPredictor.predictRank] at h
    rcases h1 : RankPredictor.normalizeScore a s hist with _ | ns
    · rw [h1] at h; exact absurd h (by simp)
    rw [h1] at h
    dsimp only at h
    rcases h2 : RankPredictor.calculateStandardError hist with _ | se
    · rw [h2] at h; exact absurd h (by simp)
    rw [h2] at h
    dsimp only at h
    rcases h3 : RankPredictor.calculatePredictionAccuracy hist with _ | pa
    · rw [h3] at h; exact absurd h (by simp)
    rw [h3] at h
    dsimp only at h
    have hr := (Option.some_inj.mp h).symm
    subst hr
    exact ⟨ns, rfl, rfl, se, rfl, rfl⟩
  · intro ns hist hcorr hbase
    have hbr : (0 : ℝ) < (RankPredictor.getBaseRank ns : ℝ) := by exact_mod_cast hbase
    have hneg : (RankPredictor.getBaseRank ns : ℝ) *
        RankPredictor.calculateHistoricalCorrelation hist < 0 :=
      mul_neg_of_pos_of_neg hbr hcorr
    have := round_le_round_of_le (le_of_lt hneg)
    rwa [round_zero] at this

/-- Witness for C4: the formula decomposition at the one-record history with
performance accuracy 80 and speed 60, and the non-positive predicted rank at
normalized score 1/2 on the anti-correlated two-record history. -/
theorem predictedRank_formula_witness :
    (∃ ns, RankPredictor.normalizeScore 80 60 [⟨50, 1000, 100, 100⟩] = some ns ∧
      (RankPredictor.PredictionResult.mk
          (RankPredictor.calculatePredictedRank
            ((0.4 : ℝ) * ((80 : ℚ) : ℝ) + 0.2 * ((60 : ℚ) : ℝ) + 0.2)
            [⟨50, 1000, 100, 100⟩])
          (RankPredictor.ciBounds
            (RankPredictor.calculatePredictedRank
              ((0.4 : ℝ) * ((80 : ℚ) : ℝ) + 0.2 * ((60 : ℚ) : ℝ) + 0.2)
              [⟨50, 1000, 100, 100⟩]) 0)
          ((0.4 : ℝ) * ((80 : ℚ) : ℝ) + 0.2 * ((60 : ℚ) : ℝ) + 0.2)
          (RankPredictor.getPotentialColleges
            (RankPredictor.calculatePredictedRank
              ((0.4 : ℝ) * ((80 : ℚ) : ℝ) + 0.2 * ((60 : ℚ) : ℝ) + 0.2)
              [⟨50, 1000, 100, 100⟩]))
          (7 / 10)).predictedRank
        = round ((RankPredictor.getBaseRank ns : ℝ) *
            RankPredictor.calculateHistoricalCorrelation [⟨50, 1000, 100, 100⟩]) ∧
      ∃ se, RankPredictor.calculateStandardError [⟨50, 1000, 100, 100⟩] = some se ∧
        (RankPredictor.ciBounds
            (RankPredictor.calculatePredictedRank
              ((0.4 : ℝ) * ((80 : ℚ) : ℝ) + 0.2 * ((60 : ℚ) : ℝ) + 0.2)
              [⟨50, 1000, 100, 100⟩]) 0)
          = RankPredictor.ciBounds
              (RankPredictor.calculatePredictedRank
                ((0.4 : ℝ) * ((80 : ℚ) : ℝ) + 0.2 * ((60 : ℚ) : ℝ) + 0.2)
                [⟨50, 1000, 100, 100⟩]) se) ∧
    RankPredictor.calculatePredictedRank (1 / 2)
      [⟨50, 4000, 50, 50⟩, ⟨90, 1000, 90, 90⟩] ≤ 0 :=
  ⟨predictedRank_formula.1 80 60 [⟨50, 1000, 100, 100⟩] _
      (RankPredictor.predictRank_singleton 80 60 ⟨50, 1000, 100, 100⟩),
    predictedRank_formula.2 (1 / 2) [⟨50, 4000, 50, 50⟩, ⟨90, 1000, 90, 90⟩]
      (by rw [correlation_anticorrelated_eval]; norm_num)
      (by
        rw [show RankPredictor.getBaseRank (1 / 2) = 25000 from by
          rw [RankPredictor.getBaseRank]
          exact round_eq_intCast_of_eq (by push_cast; norm_num)]
        norm_num)⟩

/-- Claim C4 counterexample: on the perfectly anti-correlated history
[(score 50, rank 4000), (score 90, rank 1000)] the correlation is -1; at
normalized score 1/2 the code predicts round(25000 * (-1)) = -25000, whereas
replacing the negative correlation by the neutral value 1 would predict
25000 — so a negative correlation is not replaced by 1. -/
theorem negative_correlation_used_counterexample :
    RankPredictor.calculateHistoricalCorrelation
        [⟨50, 4000, 50, 50⟩, ⟨90, 1000, 90, 90⟩] = -1 ∧
    RankPredictor.calculatePredictedRank (1 / 2)
        [⟨50, 4000, 50, 50⟩, ⟨90, 1000, 90, 90⟩] = -25000 ∧
    round ((RankPredictor.getBaseRank (1 / 2) : ℝ) * 1) = 25000 ∧
    (-25000 : ℤ) ≠ 25000 := by
  have hbase : RankPredictor.getBaseRank (1 / 2) = 25000 := by
    rw [RankPredictor.getBaseRank]
    exact round_eq_intCast_of_eq (by push_cast; norm_num)
  refine ⟨correlation_anticorrelated_eval, ?_, ?_, by decide⟩
  · rw [RankPredictor.calculatePredictedRank, correlation_anticorrelated_eval, hbase]
    exact round_eq_intCast_of_eq (by push_cast; norm_num)
  · rw [hbase, mul_one, round_intCast]

/-- Claim C7 (amended): on a one-attempt history the improvement rate and
every topic improvement are 0 and the standard error is 0; the confidence
interval degenerates to `{lower: pr, upper: pr}` whenever the predicted rank
is at least 1 (for a predicted rank below 1 the lower bound clamps to 1). -/
theorem single_attempt_neutral_values :
    (∀ hq : QuizAnalyzer.HQuiz, QuizAnalyzer.calculateImprovementRate [hq] = some 0) ∧
    (∀ (ctx : QuizAnalyzer.Ctx) (hq : QuizAnalyzer.HQuiz) (topic : String),
      QuizAnalyzer.calculateTopicImprovement ctx [hq] topic = some 0) ∧
    (∀ d : RankPredictor.HistoricalDatum,
      RankPredictor.calculateImprovement [d] = some 0) ∧
    (∀ d : RankPredictor.HistoricalDatum,
      RankPredictor.calculateStandardError [d] = some 0) ∧
    ∀ pr : ℤ, 1 ≤ pr → RankPredictor.ciBounds pr 0 = (pr, pr) := by
  refine ⟨?_, ?_, ?_, RankPredictor.calculateStandardError_singleton, ?_⟩
  · intro hq
    simp [QuizAnalyzer.calculateImprovementRate]
  · intro ctx hq topic
    simp [QuizAnalyzer.calculateTopicImprovement]
  · intro d
    simp [RankPredictor.calculateImprovement]
  · intro pr hpr
    rw [RankPredictor.ciBounds_zero, max_eq_right hpr]

/-- Witness for C7 at concrete inputs: a singleton history with score 40
gives improvement rate 0, and the interval at predicted rank 7 with standard
error 0 is the point (7, 7). -/
theorem single_attempt_neutral_values_witness :
    QuizAnalyzer.calculateImprovementRate [⟨40, []⟩] = some 0 ∧
    RankPredictor.ciBounds 7 0 = (7, 7) :=
  ⟨single_attempt_neutral_values.1 ⟨40, []⟩,
    single_attempt_neutral_values.2.2.2.2 7 (by decide)⟩

/-- Claim C7 counterexample: on the one-record history
[{score 50, rank 500, accuracy 100, speed 100}] with performance accuracy
100 and speed 50, the standard error is 0 yet the confidence interval is
(1, -2460000), not the degenerate point at the predicted rank -2460000. -/
theorem single_attempt_ci_not_point_counterexample :
    (RankPredictor.predictRank 100 50 [⟨50, 500, 100, 100⟩]).map
        (fun r => (r.confidenceInterval, r.predictedRank))
      = some ((1, -2460000), -2460000) ∧
    ((1 : ℤ), (-2460000 : ℤ)) ≠ ((-2460000 : ℤ), (-2460000 : ℤ)) := by
  have hpr : RankPredictor.calculatePredictedRank
      ((0.4 : ℝ) * ((100 : ℚ) : ℝ) + 0.2 * ((50 : ℚ) : ℝ) + 0.2)
      [⟨50, 500, 100, 100⟩] = -2460000 := by
    rw [RankPredictor.calculatePredictedRank_singleton, RankPredictor.getBaseRank]
    exact round_eq_intCast_of_eq (by push_cast; norm_num)
  constructor
  · rw [RankPredictor.predictRank_singleton, hpr]
    simp only [Option.map_some']
    rw [RankPredictor.ciBounds_zero]
    norm_num
  · intro h
    exact absurd (congrArg Prod.fst h) (by decide)

/-- Claim C10: every college returned by `getPotentialColleges` has
probability exactly 0.9 or 0.7 — the 0.3 branch of
`calculateCollegeProbability` is unreachable because the tier list is first
filtered to tiers with `predictedRank ≤ maxRank`. -/
theorem potentialColleges_probabilities (pr : ℤ) (c : RankPredictor.College)
    (hc : c ∈ RankPredictor.getPotentialColleges pr) :
    c.probability = 9 / 10 ∨ c.probability = 7 / 10 := by
  rw [RankPredictor.getPotentialColleges] at hc
  rcases List.mem_map.mp hc with ⟨tier, htier, rfl⟩
  have hle : (pr : ℚ) ≤ tier.1 := by
    have h := (List.mem_filter.mp htier).2
    simpa using h
  show RankPredictor.calculateCollegeProbability pr tier.1 = 9 / 10 ∨
    RankPredictor.calculateCollegeProbability pr tier.1 = 7 / 10
  rw [RankPredictor.calculateCollegeProbability]
  by_cases h1 : (pr : ℚ) ≤ tier.1 - tier.1 * (1 / 10)
  · rw [if_pos h1]; left; rfl
  · rw [if_neg h1, if_pos hle]; right; rfl

/-- Witness for C10: at predicted rank 500 the first returned tier is Tier 1
with probability 0.9. -/
theorem potentialColleges_probabilities_witness :
    (⟨"Tier 1 Medical Colleges", 9 / 10, 0, 1000⟩ :
        RankPredictor.College).probability = 9 / 10 ∨
    (⟨"Tier 1 Medical Colleges", 9 / 10, 0, 1000⟩ :
        RankPredictor.College).probability = 7 / 10 :=
  potentialColleges_probabilities 500 _ (by
    norm_num [RankPredictor.getPotentialColleges, RankPredictor.collegeTiers,
      RankPredictor.calculateCollegeProbability, List.filter])

theorem cvFormula_const (scores : List ℚ) (s : ℚ) (hne : scores ≠ []) (hs : s ≠ 0)
    (hall : ∀ x ∈ scores, x = s) : cvFormula scores = some 1 := by
  have hrep : scores = List.replicate scores.length s := List.eq_replicate_of_mem hall
  have hnne : ((scores.length : ℚ)) ≠ 0 := by
    have := (List.length_pos.mpr hne).ne'
    exact_mod_cast this
  have hsum : scores.sum = (scores.length : ℚ) * s := by
    conv_lhs => rw [hrep]
    simp [List.sum_replicate, nsmul_eq_mul]
  rw [cvFormula]
  rw [show jsDiv scores.sum (scores.length : ℚ) = some s from by
    rw [hsum, jsDiv, if_neg hnne]
    congr 1
    field_simp]
  dsimp only
  rw [show jsDiv ((scores.map (fun x => (x - s) ^ 2)).sum) (scores.length : ℚ)
      = some 0 from by
    rw [show (scores.map (fun x => (x - s) ^ 2)).sum = 0 from by
      conv_lhs => rw [hrep]
      simp [List.map_replicate, List.sum_replicate]]
    rw [jsDiv, if_neg hnne]
    simp]
  dsimp only
  rw [show ((0 : ℚ) : ℝ) = (0 : ℝ) from by norm_num, Real.sqrt_zero]
  rw [jsDivR, if_neg (show ¬ ((s : ℚ) : ℝ) = 0 from by exact_mod_cast hs)]
  simp

/-- Claim C6 (amended): on a series where every score equals the same nonzero
value both consistency implementations return exactly 1 (zero variance), and
`RankPredictor.calculateConsistency` returns the neutral value 1 for any
series of fewer than 2 points; `QuizAnalyzer.calculateConsistencyScore` has
no such guard and computes the formula directly (non-finite on an empty or
all-zero series). -/
theorem consistency_identical_scores :
    (∀ (history : List QuizAnalyzer.HQuiz) (s : ℚ), history ≠ [] → s ≠ 0 →
      (∀ q ∈ history, q.score = s) →
      QuizAnalyzer.calculateConsistencyScore history = some 1) ∧
    (∀ hist : List RankPredictor.HistoricalDatum, hist.length < 2 →
      RankPredictor.calculateConsistency hist = some 1) ∧
    ∀ (hist : List RankPredictor.HistoricalDatum) (s : ℚ), hist ≠ [] → s ≠ 0 →
      (∀ d ∈ hist, d.score = s) →
      RankPredictor.calculateConsistency hist = some 1 := by
  refine ⟨?_, ?_, ?_⟩
  · intro history s hne hs hall
    rw [QuizAnalyzer.calculateConsistencyScore]
    refine cvFormula_const _ s (by simpa using hne) hs ?_
    intro x hx
    rcases List.mem_map.mp hx with ⟨q, hq, rfl⟩
    exact hall q hq
  · intro hist hlen
    show (if (hist.map (fun d => d.score)).length < 2 then some (1 : ℝ)
      else cvFormula (hist.map (fun d => d.score))) = some 1
    rw [if_pos (by simpa using hlen)]
  · intro hist s hne hs hall
    show (if (hist.map (fun d => d.score)).length < 2 then some (1 : ℝ)
      else cvFormula (hist.map (fun d => d.score))) = some 1
    by_cases hlen : (hist.map (fun d => d.score)).length < 2
    · rw [if_pos hlen]
    · rw [if_neg hlen]
      refine cvFormula_const _ s (by simpa using hne) hs ?_
      intro x hx
      rcases List.mem_map.mp hx with ⟨d, hd, rfl⟩
      exact hall d hd

/-- Witness for C6 at concrete inputs: a singleton history with constant
nonzero score 5 yields consistency exactly 1 in the analyzer, and the
predictor returns 1 on an empty history. -/
theorem consistency_identical_scores_witness :
    QuizAnalyzer.calculateConsistencyScore [⟨5, []⟩] = some 1 ∧
    RankPredictor.calculateConsistency [] = some 1 :=
  ⟨consistency_identical_scores.1 [⟨5, []⟩] 5 (by simp) (by norm_num) (by simp),
    consistency_identical_scores.2.1 [] (by simp)⟩

/-- Claim C6 counterexample: on a history whose scores are all the identical
value 0, `calculateConsistencyScore` divides by the zero mean and returns a
non-finite value, not exactly 1. -/
theorem consistency_all_zero_counterexample :
    QuizAnalyzer.calculateConsistencyScore [⟨0, []⟩, ⟨0, []⟩] = none ∧
    (none : Option ℝ) ≠ some 1 := by
  refine ⟨?_, by simp⟩
  norm_num [QuizAnalyzer.calculateConsistencyScore, cvFormula, jsDiv, jsDivR,
    Real.sqrt_zero]

namespace Utils

/-- `calculateMean`: 0 on an empty list, otherwise sum divided by length.
Elements are JavaScript numbers: a non-finite element poisons the mean. -/
def calculateMean (values : List (Option ℚ)) : Option ℚ :=
  if values.length = 0 then some 0
  else (optSum values).map (fun s => s / (values.length : ℚ))

/-- `calculateMovingAverage` (default window 3): position `i` of the result
holds the mean of `data.slice(max(0, i - windowSize + 1), i + 1)`, the window
of at most `windowSize` elements ending at `i`. -/
def calculateMovingAverage (data : List (Option ℚ)) (windowSize : ℕ) :
    List (Option ℚ) :=
  (List.range data.length).map (fun i =>
    calculateMean ((data.take (i + 1)).drop (i + 1 - windowSize)))

/-- Historical submission record as read by the data-processing module; the
nested `sub.quiz.topic` is flattened into `topic` (absent or empty when the
JavaScript guard `sub.quiz && sub.quiz.topic` fails). -/
structure HSubmission where
  quiz_id : ℤ
  submitted_at : ℚ
  correct_answers : ℚ
  total_questions : ℚ
  speed : ℚ
  topic : Option String
deriving DecidableEq

/-- The sort
`[...submissions].sort((a, b) => new Date(a.submitted_at) - new Date(b.submitted_at))`:
a stable sort ascending by timestamp. -/
def sortBySubmittedAt (subs : List HSubmission) : List HSubmission :=
  List.insertionSort (fun a b => a.submitted_at ≤ b.submitted_at) subs

/-- A `{date, value}` accuracy point; the value
`(correct_answers / total_questions) * 100` can be non-finite. -/
structure AccPoint where
  date : ℚ
  value : Option ℚ
deriving DecidableEq

/-- A `{date, value}` speed point. -/
structure SpeedPoint where
  date : ℚ
  value : ℚ
deriving DecidableEq

/-- An accuracy point after the moving-average pass: `{date, value, raw}`. -/
structure MAPoint where
  date : ℚ
  value : Option ℚ
  raw : Option ℚ
deriving DecidableEq

/-- A per-topic trend entry `{date, accuracy, speed}`. -/
structure TopicPoint where
  date : ℚ
  accuracy : Option ℚ
  speed : ℚ
deriving DecidableEq

/-- The result object of `analyzeImprovementTrends`. -/
structure Trends where
  accuracy : List MAPoint
  speed : List SpeedPoint
  topicWise : List (String × List TopicPoint)

/-- The raw accuracy series of `analyzeImprovementTrends`, in sorted order:
`(correct_answers / total_questions) * 100` per submission. -/
def accuracySeries (subs : List HSubmission) : List AccPoint :=
  (sortBySubmittedAt subs).map (fun sub =>
    ⟨sub.submitted_at,
      (jsDiv sub.correct_answers sub.total_questions).map (fun r => r * 100)⟩)

/-- `analyzeImprovementTrends`: sort ascending by `submitted_at`, build the
accuracy, speed and topic-wise series in that order, then replace the
accuracy series by its 3-window moving average, keeping each point's date
and raw value. -/
def analyzeImprovementTrends (subs : List HSubmission) : Trends :=
  { accuracy :=
      List.zipWith (fun v p => ⟨p.date, v, p.value⟩)
        (calculateMovingAverage ((accuracySeries subs).map (fun p => p.value)) 3)
        (accuracySeries subs)
    speed := (sortBySubmittedAt subs).map (fun sub => ⟨sub.submitted_at, sub.speed⟩)
    topicWise :=
      groupAcc (fun sub => sub.topic.getD "")
        (fun pts sub => pts ++
          [⟨sub.submitted_at,
            (jsDiv sub.correct_answers sub.total_questions).map (fun r => r * 100),
            sub.speed⟩])
        []
        ((sortBySubmittedAt subs).filter (fun sub => sub.topic.getD "" ≠ "")) }

end Utils

theorem optSum_map_some (l : List ℚ) : optSum (l.map some) = some l.sum := by
  induction l with
  | nil => rfl
  | cons a l ih => simp [optSum, ih]

theorem mem_zipWith_decomp {α β γ : Type} {f : α → β → γ} {x : γ} :
    ∀ {l1 : List α} {l2 : List β}, x ∈ List.zipWith f l1 l2 →
      ∃ a b, a ∈ l1 ∧ b ∈ l2 ∧ x = f a b := by
  intro l1
  induction l1 with
  | nil => intro l2 h; simp at h
  | cons a l1 ih =>
    intro l2 h
    cases l2 with
    | nil => simp at h
    | cons b l2 =>
      rw [List.zipWith_cons_cons, List.mem_cons] at h
      rcases h with rfl | h
      · exact ⟨a, b, List.mem_cons_self a l1, List.mem_cons_self b l2, rfl⟩
      · rcases ih h with ⟨a', b', ha, hb, rfl⟩
        exact ⟨a', b', List.mem_cons_of_mem a ha, List.mem_cons_of_mem b hb, rfl⟩

theorem pairwise_zipWith_right {α β γ : Type} {R : β → β → Prop}
    {S : γ → γ → Prop} (f : α → β → γ)
    (hf : ∀ a a' b b', R b b' → S (f a b) (f a' b')) :
    ∀ (l1 : List α) (l2 : List β), l2.Pairwise R →
      (List.zipWith f l1 l2).Pairwise S := by
  intro l1
  induction l1 with
  | nil => intro l2 _; simp
  | cons a l1 ih =>
    intro l2 hl2
    cases l2 with
    | nil => simp
    | cons b l2 =>
      rw [List.zipWith_cons_cons]
      rcases List.pairwise_cons.mp hl2 with ⟨hb, htail⟩
      refine List.pairwise_cons.mpr ⟨?_, ih l2 htail⟩
      intro y hy
      rcases mem_zipWith_decomp hy with ⟨a', b', _, hb', rfl⟩
      exact hf a a' b b' (hb b' hb')

/-- Claim C9: the moving average has the same length as its input and its
value at position i is the arithmetic mean of the window of at most
`windowSize` elements ending at i (only the available prefix is used when
fewer are available — no look-ahead), and the accuracy and speed trend
series of `analyzeImprovementTrends` are sorted ascending by submission
timestamp. -/
theorem movingAverage_window_and_sorted_trends :
    (∀ (data : List ℚ) (windowSize : ℕ), 1 ≤ windowSize →
      (Utils.calculateMovingAverage (data.map some) windowSize).length
          = data.length ∧
      ∀ i, i < data.length →
        (Utils.calculateMovingAverage (data.map some) windowSize)[i]? =
          some (some
            (((data.take (i + 1)).drop (i + 1 - windowSize)).sum /
              (((data.take (i + 1)).drop (i + 1 - windowSize)).length : ℚ)))) ∧
    ∀ subs : List Utils.HSubmission,
      List.Sorted (fun p q : Utils.MAPoint => p.date ≤ q.date)
        (Utils.analyzeImprovementTrends subs).accuracy ∧
      List.Sorted (fun p q : Utils.SpeedPoint => p.date ≤ q.date)
        (Utils.analyzeImprovementTrends subs).speed := by
  constructor
  · intro data windowSize hw
    constructor
    · simp [Utils.calculateMovingAverage]
    · intro i hi
      have hlen : (data.map some).length = data.length := by simp
      rw [Utils.calculateMovingAverage]
      rw [List.getElem?_map, hlen, List.getElem?_range hi, Option.map_some']
      rw [← List.map_take, ← List.map_drop]
      have hwlen : ((data.take (i + 1)).drop (i + 1 - windowSize)).length
          = i + 1 - (i + 1 - windowSize) := by
        rw [List.length_drop, List.length_take]
        omega
      have hwpos : ((data.take (i + 1)).drop (i + 1 - windowSize)).length ≠ 0 := by
        omega
      rw [Utils.calculateMean, if_neg (by simpa using hwpos), optSum_map_some]
      simp
  · intro subs
    have hsorted : List.Pairwise
        (fun a b : Utils.HSubmission => a.submitted_at ≤ b.submitted_at)
        (Utils.sortBySubmittedAt subs) := by
      haveI : IsTotal Utils.HSubmission
          (fun a b => a.submitted_at ≤ b.submitted_at) := ⟨fun a b => le_total _ _⟩
      haveI : IsTrans Utils.HSubmission
          (fun a b => a.submitted_at ≤ b.submitted_at) :=
        ⟨fun a b c hab hbc => le_trans hab hbc⟩
      exact List.sorted_insertionSort _ subs
    constructor
    · have hacc : List.Pairwise (fun p q : Utils.AccPoint => p.date ≤ q.date)
          (Utils.accuracySeries subs) :=
        hsorted.map _ (fun a b h => h)
      show List.Pairwise (fun p q : Utils.MAPoint => p.date ≤ q.date)
        (List.zipWith (fun v p => (⟨p.date, v, p.value⟩ : Utils.MAPoint))
          (Utils.calculateMovingAverage
            ((Utils.accuracySeries subs).map (fun p => p.value)) 3)
          (Utils.accuracySeries subs))
      refine pairwise_zipWith_right
        (fun v p => (⟨p.date, v, p.value⟩ : Utils.MAPoint)) ?_ _ _ hacc
      intro a a' b b' h
      exact h
    · exact hsorted.map _ (fun a b h => h)

/-- Witness for C9 at concrete inputs: the 3-window moving average of
[10, 20, 40] has length 3 and its value at position 2 is the mean 70/3 of
the full window. -/
theorem movingAverage_window_witness :
    (Utils.calculateMovingAverage (([10, 20, 40] : List ℚ).map some) 3).length = 3 ∧
    (Utils.calculateMovingAverage (([10, 20, 40] : List ℚ).map some) 3)[2]? =
      some (some
        (((([10, 20, 40] : List ℚ).take 3).drop 0).sum /
          ((((([10, 20, 40] : List ℚ).take 3).drop 0)).length : ℚ))) :=
  ⟨(movingAverage_window_and_sorted_trends.1 [10, 20, 40] 3 (by decide)).1,
    (movingAverage_window_and_sorted_trends.1 [10, 20, 40] 3 (by decide)).2 2
      (by decide)⟩
